import Mathlib

/-!
Verification of the app-context runtime module registry.

Shallow embedding of the source files:
  src/lib/dgraph.js             (directed dependency graph, addV / addE / traverse)
  src/lib/namespaced-emitter.js (namespaced event emitter, on / emit)
  src/lib/context.js            (orchestrator: register / start / getModule /
                                 dependency / module-scoped context)

JavaScript strings are embedded as lists of characters where string
splitting matters (emitter keys); elsewhere Lean strings are used.
JavaScript Maps are embedded as insertion-ordered association lists.
The microtask queue of the start() choreography is embedded as an
explicit FIFO task queue processed by an executable interpreter.
-/

set_option maxRecDepth 4000

deriving instance DecidableEq for Except

namespace AppContext

/-! ### Association lists (embedding of JavaScript Map) -/

/-- Lookup in an insertion-ordered association list (Map.prototype.get). -/
def listGet {α β : Type} [BEq α] (m : List (α × β)) (k : α) : Option β :=
  (m.find? (fun p => p.1 == k)).map (fun p => p.2)

/-- Update-or-append in an association list (Map.prototype.set): replaces the
first binding in place, otherwise appends a new binding. -/
def listSet {α β : Type} [BEq α] : List (α × β) → α → β → List (α × β)
  | [], k, v => [(k, v)]
  | (k', v') :: rest, k, v =>
    if k' == k then (k, v) :: rest else (k', v') :: listSet rest k v

/-- Positional read into a list (embeds a reference into the record heap). -/
def nth {α : Type} : List α → Nat → Option α
  | [], _ => none
  | x :: _, 0 => some x
  | _ :: rest, n + 1 => nth rest n

/-- Positional update of a list (embeds mutation of a heap record). -/
def setNth {α : Type} : List α → Nat → α → List α
  | [], _, _ => []
  | _ :: rest, 0, a => a :: rest
  | x :: rest, n + 1, a => x :: setNth rest n a

/-! ### JavaScript string primitives on character lists -/

/-- Character-list strings, used where JavaScript string splitting matters. -/
abbrev JStr := List Char

/-- Shorthand turning a Lean string literal into a character list. -/
def str (s : String) : JStr := s.toList

/-- Boolean prefix test on character lists. -/
def isPre : JStr → JStr → Bool
  | [], _ => true
  | _ :: _, [] => false
  | a :: as, b :: bs => a == b && isPre as bs

/-- String.prototype.endsWith. -/
def jsEndsWith (l suffixPart : JStr) : Bool :=
  isPre suffixPart.reverse l.reverse

/-- Index of the first occurrence of `sep` in the string, as
String.prototype.indexOf: `none` embeds the JavaScript result -1. -/
def firstOcc (sep : JStr) : JStr → Option Nat
  | [] => if isPre sep [] then some 0 else none
  | l@(_ :: rest) =>
    if isPre sep l then some 0 else (firstOcc sep rest).map (· + 1)

/-- Worker for String.prototype.split with a nonempty separator; the fuel is
always at least the string length, which suffices because every step consumes
at least one character. -/
def jsSplitAux (sep : JStr) : Nat → JStr → List JStr
  | 0, l => [l]
  | fuel + 1, l =>
    match firstOcc sep l with
    | none => [l]
    | some i => l.take i :: jsSplitAux sep fuel (l.drop (i + sep.length))

/-- String.prototype.split, including the empty-separator behaviour of
JavaScript (splitting into single characters). -/
def jsSplit (sep l : JStr) : List JStr :=
  if sep = [] then l.map (fun c => [c]) else jsSplitAux sep l.length l

/-- Test used for `event.indexOf(separator) === -1` in the source: with an
empty separator indexOf is 0, so containment always holds. -/
def jsContains (sep l : JStr) : Bool :=
  if sep = [] then true else (firstOcc sep l).isSome

/-! ### Module instances (opaque JavaScript values) -/

/-- The values a module initialize function can produce, plus the JavaScript
null used before initialization. -/
inductive Value where
  | null
  | strV (s : String)
  | num (n : Int)
deriving DecidableEq, Repr

/-! ### src/lib/dgraph.js -/

/-- An edge record: `createEdge(sv, tv)`; its computed name is `ename`. -/
structure Edge where
  efrom : String
  eto : String
deriving DecidableEq, Repr

/-- The computed `name` getter of an edge: `from->to`. -/
def Edge.ename (e : Edge) : String := e.efrom ++ "->" ++ e.eto

/-- A vertex record: `createVertex(name, data)`. -/
structure Vertex where
  name : String
  edges : List Edge
  data : Value
deriving DecidableEq, Repr

/-- `createVertex`: fresh vertex with an empty outgoing edge list. -/
def createVertex (name : String) (data : Value) : Vertex :=
  { name := name, edges := [], data := data }

/-- The graph: an insertion-ordered map from vertex name to vertex. -/
structure DGraph where
  vertices : List (String × Vertex)
deriving DecidableEq, Repr

/-- `dGraph()` with no initial vertices. -/
def dGraph : DGraph := { vertices := [] }

/-- `graph.v(name)`: vertex lookup. -/
def DGraph.v (g : DGraph) (name : String) : Option Vertex :=
  listGet g.vertices name

/-- `addV(v, data)`: inserts or replaces the vertex under the name with a
fresh vertex carrying no outgoing edges. -/
def addV (g : DGraph) (name : String) (data : Value) : DGraph :=
  { g with vertices := listSet g.vertices name (createVertex name data) }

/-- `containsEdge(v, edge)`: duplicate test by computed edge name. -/
def containsEdge (v : Vertex) (e : Edge) : Bool :=
  v.edges.any (fun e2 => e2.ename == e.ename)

/-- `addE(s, t)`: fails when either endpoint is missing; inserting an
existing edge is a no-op; otherwise the edge is appended to the source
vertex list of outgoing edges. -/
def addE (g : DGraph) (s t : String) : Except String DGraph :=
  match g.v s with
  | none => .error ("Vertex " ++ s ++ " not found")
  | some sv =>
    match g.v t with
    | none => .error ("Vertex " ++ t ++ " not found")
    | some _ =>
      let e : Edge := { efrom := s, eto := t }
      if containsEdge sv e then .ok g
      else .ok { g with vertices := listSet g.vertices s { sv with edges := sv.edges ++ [e] } }

/-- Edge insertion for building concrete example graphs: keeps the graph
unchanged on error (only used on inputs where `addE` succeeds). -/
def addEd (g : DGraph) (s t : String) : DGraph :=
  match addE g s t with
  | .ok g' => g'
  | .error _ => g

/-- Presence of the edge named s->t on vertex s, phrased through the same
duplicate test `containsEdge` the source uses. -/
def hasEdgeName (g : DGraph) (s t : String) : Bool :=
  match g.v s with
  | some sv => containsEdge sv { efrom := s, eto := t }
  | none => false

/-! ### Cycle detection (traverse, src/lib/context.js lines 104-137) -/

/-- Mutable traversal context of `traverse`. -/
structure Traversal where
  path : List String
  circular : Option (List String)
  visited : List String
deriving DecidableEq, Repr

/-- Depth-first walk of `traverse(vName, ctx)`. The source recursion always
terminates because the path only grows with fresh names; the fuel argument
bounds the recursion depth and any fuel larger than the number of vertices
is enough. -/
def traverse (g : DGraph) : Nat → String → Traversal → Traversal
  | 0, _, ctx => ctx
  | fuel + 1, vName, ctx =>
    match g.v vName with
    | none => ctx
    | some vertex =>
      let ctx :=
        if ctx.visited.contains vertex.name then ctx
        else { ctx with visited := ctx.visited ++ [vertex.name] }
      if ctx.circular.isSome then ctx
      else if ctx.path.contains vertex.name then
        { ctx with circular := some (ctx.path ++ [vertex.name]) }
      else
        let ctx := { ctx with path := ctx.path ++ [vertex.name] }
        let ctx := vertex.edges.foldl (fun c e => traverse g fuel e.eto c) ctx
        { ctx with path := ctx.path.dropLast }

/-- The empty traversal context passed by `start()`. -/
def emptyTraversal : Traversal := { path := [], circular := none, visited := [] }

/-- Written from the claim wording, for comparison with the source: the path
suffix from the first occurrence of the repeated name up to the repeat. -/
def claimSuffixCycle (path : List String) (name : String) : List String :=
  (path ++ [name]).drop (path.indexOf name)

/-! ### src/lib/namespaced-emitter.js

Handlers are embedded as numeric identifiers; each wrapped node
EventEmitter is the insertion-ordered list of its (event key, handler)
subscriptions, and emit returns the list of (handler, arguments)
invocations in delivery order. -/

/-- The namespaced emitter: separator plus the map from namespace to its
EventEmitter. A fresh emitter holds the default emitter under the empty
namespace, matching `emitters.set("", new EventEmitter())`. -/
structure NsEmitterState where
  separator : JStr
  emitters : List (JStr × List (JStr × Nat))
deriving DecidableEq, Repr

/-- `createNsEmitter(separator)`. -/
def createNs (sep : JStr) : NsEmitterState :=
  { separator := sep, emitters := [([], [])] }

/-- The subscription list a namespace emitter currently holds (empty when
the emitter does not exist, matching both `getOrCreateEmitter`, which
installs an empty emitter, and delivery to an absent emitter). -/
def contentsOf (st : NsEmitterState) (k : JStr) : List (JStr × Nat) :=
  (listGet st.emitters k).getD []

/-- `isNs(event)`: the key denotes a namespace-wide subscription when it ends
with the separator. -/
def isNsKey (sep event : JStr) : Bool := jsEndsWith event sep

/-- The emitter a key is routed to by `on`: `event.substring(0, length - 1)`
drops exactly one character for namespace keys (regardless of the separator
length); other keys go to the default emitter under the empty name. -/
def routeOf (sep event : JStr) : JStr :=
  if isNsKey sep event then event.dropLast else []

/-- `on(event, handler)`: appends the subscription to the routed emitter,
creating the namespace emitter when absent (`getOrCreateEmitter`). -/
def onSub (st : NsEmitterState) (event : JStr) (h : Nat) : NsEmitterState :=
  let k := routeOf st.separator event
  { st with emitters := listSet st.emitters k (contentsOf st k ++ [(event, h)]) }

/-- `eventInfo(event)`: `["", event]` when the separator does not occur,
otherwise the split on the separator. -/
def eventInfo (sep event : JStr) : List JStr :=
  if jsContains sep event then jsSplit sep event else [[], event]

/-- `emit(event, ...args)`: when the leading split component is nonempty the
namespace emitter fires first under the hardcoded key `ns + ":"` with the
joined remainder prepended to the arguments, then the default emitter fires
under the exact key. Returns the invocations in delivery order; the state
change of `getOrCreateEmitter` (creating an empty emitter) produces no
invocation and is not tracked. -/
def nsEmit (st : NsEmitterState) (event : JStr) (args : List Value) :
    List (Nat × List Value) :=
  let parts := eventInfo st.separator event
  let ns := parts.headD []
  let evt := parts.tail
  let nsDeliv :=
    if ns ≠ [] then
      ((contentsOf st ns).filter (fun p => p.1 == ns ++ [':'])).map
        (fun p => (p.2, Value.strV (String.mk (List.intercalate st.separator evt)) :: args))
    else []
  let defDeliv :=
    ((contentsOf st []).filter (fun p => p.1 == event)).map
      (fun p => (p.2, args))
  nsDeliv ++ defDeliv

/-- `off(event, handler)` via the returned unsubscriber: removes that
subscription wherever it is registered. -/
def offSub (st : NsEmitterState) (event : JStr) (h : Nat) : NsEmitterState :=
  { st with
    emitters := st.emitters.map
      (fun p => (p.1, p.2.filter (fun q => ¬(q.1 == event && q.2 == h)))) }

/-- A fresh emitter on which a history of `on` subscriptions was replayed in
order. -/
def subscribeAll (sep : JStr) (subs : List (JStr × Nat)) : NsEmitterState :=
  subs.foldl (fun s p => onSub s p.1 p.2) (createNs sep)

/-! ### src/lib/context.js

The orchestrator state and an executable interpreter for the start()
choreography. Module initialize functions are embedded for the class of
modules whose body synchronously returns a value or throws (equivalently,
returns an already-rejected promise); this covers every run the theorems
below evaluate. Promise reaction jobs become explicit FIFO tasks. -/

/-- The embedded initialize function of a module declaration. -/
inductive InitProg where
  | ret (v : Value)
  | throwErr (e : String)
deriving DecidableEq, Repr

/-- A `ModuleInfo` record. `module` is the JavaScript null before
initialization. -/
structure ModRecord where
  name : String
  moduleDefn : InitProg
  dependencies : List String
  initialized : Bool
  module : Value
deriving DecidableEq, Repr

/-- The defunctionalized emitter listeners the orchestrator installs: the
completion counter `start()` subscribes on "context:init-module", carrying
the start promise it resolves and the snapshot of record references
(`modInfos`) it watches. -/
inductive Listener where
  | checkAll (sid : Nat) (watch : List Nat)
deriving DecidableEq, Repr

/-- Microtask jobs of the start() choreography:
`dispatch` is the `chain.then(() => initializeModule(this, modInfo))`
reaction, `fulfil` is the `ret.then(module => ...)` completion handler of
`initializeModule`, and `cycleCheck` is the `chain.then(...)` traversal
guarded by `.catch(err => reject(err))`. -/
inductive Task where
  | dispatch (rid : Nat)
  | fulfil (rid : Nat) (v : Value)
  | cycleCheck (sid : Nat)
deriving DecidableEq, Repr

/-- Observable status of a promise returned by `start()`. -/
inductive PromiseSt where
  | pending
  | resolvedP
  | rejectedP (msg : String)
deriving DecidableEq, Repr

/-- The orchestrator state: the record heap with the name map over it (a
JavaScript Map holds object references), the dependency graph, the wrapped
namespaced emitter with its listener table, the `started` flag, the
promises minted by `start()` calls, the pending microtasks, and a log of
initialize invocations in dispatch order. -/
structure CtxState where
  recs : List ModRecord
  modules : List (String × Nat)
  graph : DGraph
  emitter : NsEmitterState
  listeners : List (Nat × Listener)
  nextListener : Nat
  started : Bool
  starts : List PromiseSt
  queue : List Task
  initLog : List String
deriving DecidableEq, Repr

/-- `createAppContext()`: empty registry, empty graph, fresh emitter,
`started = false`. -/
def initialCtx : CtxState :=
  { recs := [], modules := [], graph := dGraph, emitter := createNs [':'],
    listeners := [], nextListener := 0, started := false, starts := [],
    queue := [], initLog := [] }

/-- Whether the record a heap reference points to is initialized. -/
def recInit (st : CtxState) (rid : Nat) : Bool :=
  ((nth st.recs rid).map (fun r => r.initialized)).getD false

/-- `getModule(name)`: the instance of the record the map currently binds,
null when absent or not yet produced. -/
def getModule (st : CtxState) (name : String) : Value :=
  match listGet st.modules name with
  | some rid => ((nth st.recs rid).map (fun r => r.module)).getD .null
  | none => .null

/-- `getInitializedModules(names)`: reduce over the requested names pushing
the instance of each name whose record exists and is initialized. -/
def getInitializedModules (st : CtxState) (names : List String) : List Value :=
  names.foldl
    (fun coll n =>
      match listGet st.modules n with
      | some rid =>
        match nth st.recs rid with
        | some r => if r.initialized then coll ++ [r.module] else coll
        | none => coll
      | none => coll)
    []

/-- The instance bound to a name (null when absent), used to state order
preservation. -/
def modVal (st : CtxState) (name : String) : Value :=
  match listGet st.modules name with
  | some rid => ((nth st.recs rid).map (fun r => r.module)).getD .null
  | none => .null

/-- Whether a name is bound to an initialized record. -/
def isInit (st : CtxState) (name : String) : Bool :=
  match listGet st.modules name with
  | some rid => recInit st rid
  | none => false

/-- The `deps.filter(...)` pass of `resolveDeps`: collects the registered but
uninitialized names left to right and throws on the first unregistered
name. -/
def computeMissing (st : CtxState) : List String → Except String (List String)
  | [] => .ok []
  | d :: rest =>
    match listGet st.modules d with
    | none => .error ("Module " ++ d ++ " is not registered")
    | some rid =>
      match computeMissing st rest with
      | .error e => .error e
      | .ok m =>
        .ok (if recInit st rid then m else d :: m)

/-- Result of a `resolveDeps` call: the handler was invoked synchronously
with these arguments, or a once-subscription was installed for each missing
name. -/
inductive ResolveOutcome where
  | called (args : List Value)
  | subscribed (missing : List String)
deriving DecidableEq, Repr

/-- `resolveDeps(deps, handler)`: invoke immediately when every requested
name is initialized, otherwise verify registration of the unsatisfied names
(throwing on the first unregistered one) and subscribe once per missing
name. -/
def resolveDeps (st : CtxState) (deps : List String) : Except String ResolveOutcome :=
  let depMods := getInitializedModules st deps
  if depMods.length = deps.length then .ok (.called depMods)
  else
    match computeMissing st deps with
    | .error e => .error e
    | .ok missing => .ok (.subscribed missing)

/-- The body of the once-subscription installed by `resolveDeps`: on a
completion signal it re-checks the whole requested set against the current
registry and passes the instances through only when all are initialized. -/
def lateCheck (st : CtxState) (deps : List String) : Option (List Value) :=
  let depMods := getInitializedModules st deps
  if depMods.length = deps.length then some depMods else none

/-- Observable settlement of the promise form of `dependency(name)`. -/
inductive DepPromise where
  | resolvedD (args : List Value)
  | rejectedD (e : String)
  | pendingD (missing : List String)
deriving DecidableEq, Repr

/-- The callback form `dependency(deps, handler)`: a throw inside
`resolveDeps` propagates synchronously to the caller. -/
def dependencyCallback (st : CtxState) (deps : List String) :
    Except String ResolveOutcome :=
  resolveDeps st deps

/-- The promise form `dependency(deps)`: the executor runs `resolveDeps`, so
a throw rejects the returned promise, an immediate invocation resolves it,
and otherwise it stays pending on the installed subscriptions. -/
def dependencyPromise (st : CtxState) (deps : List String) : DepPromise :=
  match resolveDeps st deps with
  | .error e => .rejectedD e
  | .ok (.called args) => .resolvedD args
  | .ok (.subscribed missing) => .pendingD missing

/-- Sets the `dependencies` field of the record a reference points to
(`modInfo.dependencies = deps`). -/
def setRecDeps (st : CtxState) (rid : Nat) (deps : List String) : CtxState :=
  match nth st.recs rid with
  | some r => { st with recs := setNth st.recs rid { r with dependencies := deps } }
  | none => st

/-- The edge-recording loop of the module-scoped `dependency`: for each
requested name in order, throw when it is unregistered, otherwise
`depGraph.addE(moduleName, dep)`. The state accumulated before a throw is
kept, matching in-place mutation. -/
def addDepEdges (st : CtxState) (modName : String) :
    List String → CtxState × Option String
  | [] => (st, none)
  | d :: rest =>
    if (listGet st.modules d).isNone then
      (st, some ("Module " ++ d ++ " is not registered"))
    else
      match addE st.graph modName d with
      | .error e => (st, some e)
      | .ok g => addDepEdges { st with graph := g } modName rest

/-- The `dependency` member of the per-module proxy context
(`createModuleContext`): records the requested names on the calling record,
inserts one graph edge per requested name when the ambient dependency graph
is in scope (`asyncLocalStorage.getStore()`), then delegates to the main
context. The registry lookup of the calling module never fails on the
source side (module contexts exist only for registered modules); that dead
branch surfaces the JavaScript TypeError. -/
def moduleContextDependency (st : CtxState) (inScope : Bool)
    (moduleName : String) (deps : List String) :
    CtxState × Except String ResolveOutcome :=
  match listGet st.modules moduleName with
  | none => (st, .error "TypeError")
  | some rid =>
    let st1 := setRecDeps st rid deps
    if inScope then
      match addDepEdges st1 moduleName deps with
      | (st2, some e) => (st2, .error e)
      | (st2, none) => (st2, resolveDeps st2 deps)
    else (st1, resolveDeps st1 deps)

/-! #### The start() choreography -/

/-- Settle a start promise by resolution; resolving an already settled
promise is a no-op, as for JavaScript promises. -/
def resolveStart (st : CtxState) (sid : Nat) : CtxState :=
  match nth st.starts sid with
  | some .pending => { st with starts := setNth st.starts sid .resolvedP }
  | _ => st

/-- Settle a start promise by rejection; rejecting an already settled
promise is a no-op. -/
def rejectStart (st : CtxState) (sid : Nat) (msg : String) : CtxState :=
  match nth st.starts sid with
  | some .pending => { st with starts := setNth st.starts sid (.rejectedP msg) }
  | _ => st

/-- Install an emitter listener under a fresh identifier
(`emitter.on(event, handler)`). -/
def ctxOn (st : CtxState) (key : String) (l : Listener) : CtxState × Nat :=
  let lid := st.nextListener
  ({ st with
      emitter := onSub st.emitter (str key) lid,
      listeners := st.listeners ++ [(lid, l)],
      nextListener := lid + 1 }, lid)

/-- The unsubscriber returned by `on` (`emitter.off(event, handler)`). -/
def ctxOff (st : CtxState) (key : String) (lid : Nat) : CtxState :=
  { st with emitter := offSub st.emitter (str key) lid }

/-- Run one delivered listener invocation. The only listener the
orchestrator installs is the completion counter of `start()`: when every
watched record is initialized it unsubscribes itself, emits
"context:start" (whose delivery list is folded with the remaining fuel)
and resolves the start promise. Synchronous nested emits consume fuel;
reachable runs never exhaust it. -/
def runListener : Nat → CtxState → Nat → CtxState
  | 0, st, _ => st
  | fuel + 1, st, lid =>
    match listGet st.listeners lid with
    | some (.checkAll sid watch) =>
      if watch.all (fun rid => recInit st rid) then
        let st1 := ctxOff st "context:init-module" lid
        let delivs := nsEmit st1.emitter (str "context:start") []
        let st2 := delivs.foldl (fun s d => runListener fuel s d.1) st1
        resolveStart st2 sid
      else st
    | none => st

/-- `emitter.emit(key, ...args)` inside the orchestrator: compute the
delivery list, then run each invocation in order. -/
def emitCtx (fuel : Nat) (st : CtxState) (key : String) (args : List Value) :
    CtxState :=
  (nsEmit st.emitter (str key) args).foldl (fun s d => runListener fuel s d.1) st

/-- Run one microtask.
`dispatch` runs the synchronous part of `initializeModule`: the initialize
body executes now; a returned value schedules the completion handler as a
new microtask, while a throw rejects the (dropped) promise of
`initializeModule` — `chain` is never reassigned in `start()`, so nothing
observes that rejection.
`fulfil` stores the instance, flips `initialized`, rebinds the name to the
record, and emits the two completion events synchronously.
`cycleCheck` runs `traverse` from the root and rejects the start promise on
a recorded cycle (the only path into `.catch(err => reject(err))`). -/
def processTask (fuel : Nat) (st : CtxState) : Task → CtxState
  | .dispatch rid =>
    match nth st.recs rid with
    | none => st
    | some r =>
      let st := { st with initLog := st.initLog ++ [r.name] }
      match r.moduleDefn with
      | .ret v => { st with queue := st.queue ++ [.fulfil rid v] }
      | .throwErr _ => st
  | .fulfil rid v =>
    match nth st.recs rid with
    | none => st
    | some r =>
      let st := { st with recs := setNth st.recs rid { r with module := v, initialized := true } }
      let st := { st with modules := listSet st.modules r.name rid }
      let st := emitCtx fuel st ("module:" ++ r.name) [v]
      emitCtx fuel st "context:init-module" [v]
  | .cycleCheck sid =>
    let t := traverse st.graph (st.graph.vertices.length + 2) "[root]" emptyTraversal
    match t.circular with
    | some c =>
      rejectStart st sid
        ("Circular dependency detected. " ++ String.intercalate "->" c)
    | none => st

/-- Drain the microtask queue in FIFO order. -/
def drain (fuel : Nat) : Nat → CtxState → CtxState
  | 0, st => st
  | n + 1, st =>
    match st.queue with
    | [] => st
    | t :: rest => drain fuel n (processTask fuel { st with queue := rest } t)

/-- `register(moduleDefn)`: always creates a fresh record (initialized
false, null instance) and rebinds the name to it; when `started` is set the
new module would be initialized immediately (`initializeModule` runs its
synchronous part now) — the source never sets `started`, so the branch is
kept but unreachable. The overwrite warnings are console output only. -/
def register (st : CtxState) (name : String) (prog : InitProg) : CtxState :=
  let rid := st.recs.length
  let r : ModRecord :=
    { name := name, moduleDefn := prog, dependencies := [],
      initialized := false, module := .null }
  let st := { st with recs := st.recs ++ [r], modules := listSet st.modules name rid }
  if st.started then
    let st := { st with initLog := st.initLog ++ [name] }
    match prog with
    | .ret v => { st with queue := st.queue ++ [.fulfil rid v] }
    | .throwErr _ => st
  else st

/-- `start()`: returns immediately when `started` is set; otherwise mints a
pending promise, snapshots the registered records, subscribes the
completion counter, creates the root vertex, then per registered module
adds its vertex, the root edge, and queues its dispatch; the cycle check is
queued last. The root edges always succeed because both endpoints were just
added; the unreachable error branch keeps the graph. -/
def startCall (st : CtxState) : CtxState × Nat :=
  if st.started then
    let sid := st.starts.length
    ({ st with starts := st.starts ++ [.resolvedP] }, sid)
  else
    let sid := st.starts.length
    let st := { st with starts := st.starts ++ [.pending] }
    let watch := st.modules.map (fun p => p.2)
    let st := (ctxOn st "context:init-module" (.checkAll sid watch)).1
    let st := { st with graph := addV st.graph "[root]" .null }
    let st := watch.foldl
      (fun s rid =>
        match nth s.recs rid with
        | some r =>
          let s := { s with graph := addV s.graph r.name .null }
          let s :=
            match addE s.graph "[root]" r.name with
            | .ok g => { s with graph := g }
            | .error _ => s
          { s with queue := s.queue ++ [.dispatch rid] }
        | none => s)
      st
    ({ st with queue := st.queue ++ [.cycleCheck sid] }, sid)

/-- The first requested name that is not registered, if any (the name whose
check throws inside `resolveDeps`). -/
def firstUnregistered (st : CtxState) (deps : List String) : Option String :=
  deps.find? (fun d => (listGet st.modules d).isNone)

/-- The orchestrator operations an embedding client can perform, used to
state invariants over every reachable sequence of calls. -/
inductive CtxOp where
  | regOp (name : String) (prog : InitProg)
  | startOp
  | drainOp (fuel n : Nat)
  | emitOp (fuel : Nat) (key : String) (args : List Value)
deriving DecidableEq, Repr

/-- Apply one orchestrator operation. -/
def applyOp (st : CtxState) : CtxOp → CtxState
  | .regOp n p => register st n p
  | .startOp => (startCall st).1
  | .drainOp fuel n => drain fuel n st
  | .emitOp fuel key args => emitCtx fuel st key args

/-- Apply a sequence of orchestrator operations. -/
def applyOps (st : CtxState) (ops : List CtxOp) : CtxState :=
  ops.foldl applyOp st

/-! ### Concrete scenarios evaluated by the theorems -/

/-- Two registered modules: `a` returns an instance, `b` throws. -/
def c1Reg : CtxState :=
  register (register initialCtx "a" (.ret (.strV "va"))) "b" (.throwErr "boom")

/-- Startup of the failing registry, run to quiescence. -/
def c1Run : CtxState := drain 20 20 (startCall c1Reg).1

/-- One successful module, started and run to quiescence. -/
def c2Run1 : CtxState :=
  drain 20 20 (startCall (register initialCtx "a" (.ret (.strV "va")))).1

/-- A second `start()` call on the already started context, run to
quiescence. -/
def c2Run2 : CtxState := drain 20 20 (startCall c2Run1).1

/-- Re-registration of the already initialized name `a`. -/
def c8After : CtxState := register c2Run1 "a" (.ret (.strV "va"))

/-- The cyclic graph root -> a -> b -> a. -/
def gC : DGraph :=
  addEd (addEd (addEd
    (addV (addV (addV dGraph "[root]" .null) "a" .null) "b" .null)
    "[root]" "a") "a" "b") "b" "a"

/-- Registry of two uninitialized modules. -/
def c3Reg : CtxState :=
  register (register initialCtx "a" (.ret (.strV "va"))) "b" (.ret (.strV "vb"))

/-- Mid-startup state after module `a` requested `dependency(["b"])` through
its scoped context: the graph holds root -> a, root -> b, a -> b. -/
def c3St : CtxState :=
  (moduleContextDependency (startCall c3Reg).1 true "a" ["b"]).1

/-- The scoped dependency call of module `b` requesting `a`, which closes
the cycle a -> b -> a. -/
def c3Call : CtxState × Except String ResolveOutcome :=
  moduleContextDependency c3St true "b" ["a"]

/-- Default-separator emitter with an exact subscription (handler 1 on
"ns:event") made before a namespace-wide one (handler 2 on "ns:"). -/
def e7 : NsEmitterState :=
  onSub (onSub (createNs [':']) (str "ns:event") 1) (str "ns:") 2

/-- Emitter created with the empty separator, with handler 1 subscribed to
the namespace key "a:". -/
def e9 : NsEmitterState := onSub (createNs []) (str "a:") 1

/-! ## Theorems -/

/-! ### Association-list lemmas -/

theorem listGet_listSet_self {α β : Type} [BEq α] [LawfulBEq α] (m : List (α × β)) (k : α) (v : β) :
    listGet (listSet m k v) k = some v := by
  induction m with
  | nil => simp [listGet, listSet, List.find?]
  | cons p rest ih =>
    obtain ⟨k', v'⟩ := p
    by_cases h : k' = k
    · subst h
      simp [listGet, listSet, List.find?]
    · have hb : (k' == k) = false := by simp [h]
      simp only [listSet, hb, if_false]
      simpa [listGet, List.find?, hb] using ih

theorem listGet_listSet_ne {α β : Type} [BEq α] [LawfulBEq α] (m : List (α × β)) (k k' : α) (v : β)
    (h : k' ≠ k) : listGet (listSet m k v) k' = listGet m k' := by
  have hkk' : (k == k') = false := beq_eq_false_iff_ne.mpr (Ne.symm h)
  induction m with
  | nil => simp [listGet, listSet, List.find?, hkk']
  | cons p rest ih =>
    obtain ⟨k0, v0⟩ := p
    by_cases h0 : k0 = k
    · have hb : (k0 == k) = true := beq_iff_eq.mpr h0
      have hb'' : (k0 == k') = false := by
        subst h0
        exact hkk'
      simp [listGet, listSet, List.find?, hb, hkk', hb'']
    · have hb : (k0 == k) = false := beq_eq_false_iff_ne.mpr h0
      by_cases h1 : k0 = k'
      · have hb1 : (k0 == k') = true := beq_iff_eq.mpr h1
        simp [listGet, listSet, List.find?, hb, hb1]
      · have hb1 : (k0 == k') = false := beq_eq_false_iff_ne.mpr h1
        simp only [listSet, hb, if_false]
        simpa [listGet, List.find?, hb1] using ih

theorem nth_setNth_self {α : Type} :
    ∀ (l : List α) (n : Nat) (a : α), n < l.length → nth (setNth l n a) n = some a
  | [], n, a, h => by simp at h
  | _ :: rest, 0, a, _ => rfl
  | x :: rest, n + 1, a, h =>
    nth_setNth_self rest n a (by simpa using h)

theorem nth_setNth_ne {α : Type} :
    ∀ (l : List α) (n m : Nat) (a : α), n ≠ m → nth (setNth l n a) m = nth l m
  | [], _, _, _, _ => rfl
  | x :: rest, 0, 0, a, h => absurd rfl h
  | x :: rest, 0, m + 1, a, _ => rfl
  | x :: rest, n + 1, 0, a, _ => rfl
  | x :: rest, n + 1, m + 1, a, h =>
    nth_setNth_ne rest n m a (fun hh => h (by simp [hh]))

theorem nth_lt_length {α : Type} :
    ∀ (l : List α) (i : Nat) (x : α), nth l i = some x → i < l.length
  | [], i, x, h => by simp [nth] at h
  | y :: rest, 0, x, _ => by simp
  | y :: rest, i + 1, x, h => by
    have := nth_lt_length rest i x h
    simpa using Nat.succ_lt_succ this

theorem nth_append_lt {α : Type} :
    ∀ (l l' : List α) (i : Nat) (x : α), nth l i = some x → nth (l ++ l') i = some x
  | [], _, i, x, h => by simp [nth] at h
  | y :: rest, l', 0, x, h => h
  | y :: rest, l', i + 1, x, h => nth_append_lt rest l' i x h

/-! ### C10: addV replaces a vertex with a fresh one -/

/-- C10: adding a vertex under an existing name replaces it with a fresh
vertex whose outgoing-edge list is empty — every previously inserted
outgoing edge of that name is discarded — while every other vertex,
including any whose edges point to that name, is untouched. -/
theorem c10_addV_replaces (g : DGraph) (name : String) (data : Value) :
    (addV g name data).v name = some (createVertex name data) ∧
    (createVertex name data).edges = [] ∧
    (∀ other : String, other ≠ name → (addV g name data).v other = g.v other) := by
  refine ⟨?_, rfl, ?_⟩
  · simpa [addV, DGraph.v] using listGet_listSet_self g.vertices name (createVertex name data)
  · intro other h
    simpa [addV, DGraph.v] using
      listGet_listSet_ne g.vertices name other (createVertex name data) h

/-- C10 witness: concrete evaluation on the cyclic example graph — re-adding
`a` discards the edge a -> b while b keeps its edge b -> a. -/
theorem c10_addV_replaces_witness :
    (addV gC "a" .null).v "a" = some (createVertex "a" .null) ∧
    ((addV gC "a" .null).v "b").map Vertex.edges =
      some [{ efrom := "b", eto := "a" }] := by
  refine ⟨(c10_addV_replaces gC "a" .null).1, ?_⟩
  have h := (c10_addV_replaces gC "a" .null).2.2 "b" (by decide)
  rw [h]
  decide

/-! ### Resolver lemmas (getInitializedModules, computeMissing) -/

theorem getInit_go_all (st : CtxState) :
    ∀ (deps : List String) (acc : List Value), (∀ d ∈ deps, isInit st d = true) →
    deps.foldl
      (fun coll n =>
        match listGet st.modules n with
        | some rid =>
          match nth st.recs rid with
          | some r => if r.initialized then coll ++ [r.module] else coll
          | none => coll
        | none => coll)
      acc = acc ++ deps.map (modVal st)
  | [], acc, _ => by simp
  | d :: rest, acc, h => by
    have hd : isInit st d = true := h d (by simp)
    have hrest : ∀ x ∈ rest, isInit st x = true := fun x hx => h x (by simp [hx])
    match hg : listGet st.modules d with
    | none => simp [isInit, hg] at hd
    | some rid =>
      match hr : nth st.recs rid with
      | none => simp [isInit, hg, recInit, hr] at hd
      | some r =>
        have hinit : r.initialized = true := by
          simpa [isInit, hg, recInit, hr] using hd
        have step := getInit_go_all st rest (acc ++ [r.module]) hrest
        simp only [List.foldl, hg, hr, hinit, if_true] at step ⊢
        rw [step]
        simp [modVal, hg, hr]

theorem getInitializedModules_all (st : CtxState) (deps : List String)
    (h : ∀ d ∈ deps, isInit st d = true) :
    getInitializedModules st deps = deps.map (modVal st) := by
  simpa [getInitializedModules] using getInit_go_all st deps [] h

theorem getInit_go_len_le (st : CtxState) :
    ∀ (deps : List String) (acc : List Value),
    (deps.foldl
      (fun coll n =>
        match listGet st.modules n with
        | some rid =>
          match nth st.recs rid with
          | some r => if r.initialized then coll ++ [r.module] else coll
          | none => coll
        | none => coll)
      acc).length ≤ acc.length + deps.length
  | [], acc => by simp
  | d :: rest, acc => by
    have step : ∀ acc' : List Value, acc'.length ≤ acc.length + 1 →
        (rest.foldl
          (fun coll n =>
            match listGet st.modules n with
            | some rid =>
              match nth st.recs rid with
              | some r => if r.initialized then coll ++ [r.module] else coll
              | none => coll
            | none => coll)
          acc').length ≤ acc.length + (rest.length + 1) := by
      intro acc' hlen
      calc _ ≤ acc'.length + rest.length := getInit_go_len_le st rest acc'
        _ ≤ (acc.length + 1) + rest.length := by omega
        _ = acc.length + (rest.length + 1) := by omega
    simp only [List.foldl, List.length_cons]
    rw [show rest.length + 1 = Nat.succ rest.length from rfl]
    match hg : listGet st.modules d with
    | none => exact step acc (by omega)
    | some rid =>
      match hr : nth st.recs rid with
      | none =>
        simp only [hr]
        exact step acc (by omega)
      | some r =>
        by_cases hinit : r.initialized
        · simpa [hr, hinit] using step (acc ++ [r.module]) (by simp)
        · simpa [hr, hinit] using step acc (by omega)

theorem getInit_go_len_lt (st : CtxState) :
    ∀ (deps : List String) (acc : List Value) (d : String), d ∈ deps →
    isInit st d = false →
    (deps.foldl
      (fun coll n =>
        match listGet st.modules n with
        | some rid =>
          match nth st.recs rid with
          | some r => if r.initialized then coll ++ [r.module] else coll
          | none => coll
        | none => coll)
      acc).length < acc.length + deps.length
  | [], _, d, hmem, _ => by simp at hmem
  | x :: rest, acc, d, hmem, hbad => by
    by_cases hdx : isInit st x = false
    · have hstep :
          (match listGet st.modules x with
            | some rid =>
              match nth st.recs rid with
              | some r => if r.initialized then acc ++ [r.module] else acc
              | none => acc
            | none => acc) = acc := by
        match hg : listGet st.modules x with
        | none => rfl
        | some rid =>
          match hr : nth st.recs rid with
          | none => simp [hr]
          | some r =>
            have : r.initialized = false := by
              simpa [isInit, hg, recInit, hr] using hdx
            simp [hr, this]
      simp only [List.foldl, hstep, List.length_cons]
      have := getInit_go_len_le st rest acc
      omega
    · have hx : isInit st x = true := by
        cases hix : isInit st x with
        | true => rfl
        | false => exact absurd hix hdx
      have hdrest : d ∈ rest := by
        rcases List.mem_cons.mp hmem with h1 | h1
        · subst h1; rw [hx] at hbad; exact absurd hbad (by simp)
        · exact h1
      match hg : listGet st.modules x with
      | none => simp [isInit, hg] at hx
      | some rid =>
        match hr : nth st.recs rid with
        | none => simp [isInit, hg, recInit, hr] at hx
        | some r =>
          have hinit : r.initialized = true := by
            simpa [isInit, hg, recInit, hr] using hx
          have := getInit_go_len_lt st rest (acc ++ [r.module]) d hdrest hbad
          simp only [List.foldl, hg, hr, hinit, if_true, List.length_cons]
          simp only [List.length_append, List.length_singleton] at this
          omega

theorem getInitializedModules_len_lt (st : CtxState) (deps : List String)
    (d : String) (hmem : d ∈ deps) (hbad : isInit st d = false) :
    (getInitializedModules st deps).length < deps.length := by
  simpa [getInitializedModules] using getInit_go_len_lt st deps [] d hmem hbad

theorem getInitializedModules_all_of_len (st : CtxState) (deps : List String)
    (h : (getInitializedModules st deps).length = deps.length) :
    ∀ d ∈ deps, isInit st d = true := by
  intro d hd
  cases hix : isInit st d with
  | true => rfl
  | false =>
    have := getInitializedModules_len_lt st deps d hd hix
    omega

theorem computeMissing_err (st : CtxState) :
    ∀ (deps : List String) (d : String), firstUnregistered st deps = some d →
    computeMissing st deps = .error ("Module " ++ d ++ " is not registered")
  | [], d, h => by simp [firstUnregistered, List.find?] at h
  | x :: rest, d, h => by
    by_cases hx : (listGet st.modules x).isNone
    · have hdx : d = x := by
        simp only [firstUnregistered, List.find?, hx] at h
        exact (Option.some_inj.mp h).symm
      have hnone : listGet st.modules x = none := Option.isNone_iff_eq_none.mp hx
      rw [hdx]
      simp [computeMissing, hnone]
    · have hx' : (listGet st.modules x).isNone = false := by
        cases hv : (listGet st.modules x).isNone with
        | true => exact absurd hv hx
        | false => rfl
      have hrest : firstUnregistered st rest = some d := by
        simpa [firstUnregistered, List.find?, hx'] using h
      have ih := computeMissing_err st rest d hrest
      match hg : listGet st.modules x with
      | none => simp [hg] at hx'
      | some rid => simp [computeMissing, hg, ih]

/-! ### C5: handler receives instances in the order requested -/

/-- C5: when every requested name is initialized at the time of the call,
`resolveDeps` invokes the handler synchronously, exactly once, with the
instances in exactly the order of the requested names; and whenever the
once-subscription body fires the handler later, it again passes the
instances in request order under the registry state of that moment,
regardless of completion order. -/
theorem c5_dependency_order_preserved :
    (∀ (st : CtxState) (deps : List String), (∀ d ∈ deps, isInit st d = true) →
      resolveDeps st deps = .ok (.called (deps.map (modVal st)))) ∧
    (∀ (st : CtxState) (deps : List String) (args : List Value),
      lateCheck st deps = some args → args = deps.map (modVal st)) := by
  constructor
  · intro st deps h
    have hall := getInitializedModules_all st deps h
    simp [resolveDeps, hall]
  · intro st deps args h
    simp only [lateCheck] at h
    by_cases hlen : (getInitializedModules st deps).length = deps.length
    · have hall := getInitializedModules_all st deps
        (getInitializedModules_all_of_len st deps hlen)
      rw [if_pos hlen] at h
      rw [← hall]
      exact (Option.some_inj.mp h).symm
    · rw [if_neg hlen] at h
      exact absurd h (by simp)

/-- C5 witness: in the mid-startup state both registered names are still
uninitialized, but after the run of `c2Run1` the single name `a` is
initialized and the handler receives exactly its instance; the late
re-check on that state likewise passes the instance through. -/
theorem c5_dependency_order_preserved_witness :
    resolveDeps c2Run1 ["a"] = .ok (.called [.strV "va"]) ∧
    ([Value.strV "va"] : List Value) = ["a"].map (modVal c2Run1) := by
  have h1 := c5_dependency_order_preserved.1 c2Run1 ["a"] (by decide)
  have h2 := c5_dependency_order_preserved.2 c2Run1 ["a"] [.strV "va"] (by decide)
  exact ⟨by rw [h1]; decide, h2⟩

/-! ### C6: unregistered dependency fails fast -/

/-- C6: when some requested name is unregistered at call time, the call
fails immediately with the unregistered-dependency error naming the first
such module: `resolveDeps` throws, so the callback form throws
synchronously and the promise form rejects; no subscription is installed
and the call never waits. -/
theorem c6_unregistered_fails_fast (st : CtxState) (deps : List String)
    (d : String) (h : firstUnregistered st deps = some d) :
    resolveDeps st deps = .error ("Module " ++ d ++ " is not registered") ∧
    dependencyCallback st deps = .error ("Module " ++ d ++ " is not registered") ∧
    dependencyPromise st deps = .rejectedD ("Module " ++ d ++ " is not registered") := by
  have hmem : d ∈ deps :=
    List.mem_of_find?_eq_some
      (show deps.find? (fun x => (listGet st.modules x).isNone) = some d from h)
  have hp : ((listGet st.modules d).isNone : Bool) = true := by
    simpa using
      List.find?_some
        (show deps.find? (fun x => (listGet st.modules x).isNone) = some d from h)
  have hnone : listGet st.modules d = none := by
    cases hg : listGet st.modules d with
    | none => rfl
    | some rid => rw [hg] at hp; simp at hp
  have hbad : isInit st d = false := by simp [isInit, hnone]
  have hlt := getInitializedModules_len_lt st deps d hmem hbad
  have hne : ¬(getInitializedModules st deps).length = deps.length := by omega
  have herr := computeMissing_err st deps d h
  have hres : resolveDeps st deps = .error ("Module " ++ d ++ " is not registered") := by
    simp [resolveDeps, hne, herr]
  exact ⟨hres, hres, by simp [dependencyPromise, hres]⟩

/-- C6 witness: requesting the never-registered name "ghost" in the
mid-startup state fails at once in both forms. -/
theorem c6_unregistered_fails_fast_witness :
    firstUnregistered c3St ["b", "ghost"] = some "ghost" ∧
    dependencyPromise c3St ["b", "ghost"] =
      .rejectedD "Module ghost is not registered" := by
  exact ⟨by decide, (c6_unregistered_fails_fast c3St ["b", "ghost"] "ghost" (by decide)).2.2⟩

/-! ### C4: what the traversal records for a cycle -/

/-- C4 amended: at a vertex whose name already occurs on the current path
the traversal records the entire current path with the repeated name
appended (the cycle is the suffix of that list from the first occurrence
of the repeated name, but the whole path from the traversal root is
recorded), and once a cycle is recorded the traversal stops exploring:
every further step leaves the path and the recorded cycle unchanged. -/
theorem c4_traverse_cycle_recording :
    (∀ (g : DGraph) (fuel : Nat) (v : String) (ctx : Traversal) (c : List String),
      ctx.circular = some c →
      (traverse g fuel v ctx).circular = some c ∧
      (traverse g fuel v ctx).path = ctx.path) ∧
    (∀ (g : DGraph) (fuel : Nat) (v : String) (ctx : Traversal) (vert : Vertex),
      ctx.circular = none → g.v v = some vert → vert.name ∈ ctx.path →
      traverse g (fuel + 1) v ctx =
        { path := ctx.path,
          circular := some (ctx.path ++ [vert.name]),
          visited := if vert.name ∈ ctx.visited then ctx.visited
                     else ctx.visited ++ [vert.name] }) := by
  constructor
  · intro g fuel v ctx c h
    cases fuel with
    | zero => exact ⟨h, rfl⟩
    | succ n =>
      cases hv : g.v v with
      | none => simp [traverse, hv, h]
      | some vertex =>
        by_cases hvis : vertex.name ∈ ctx.visited
        · simp [traverse, hv, hvis, h]
        · simp [traverse, hv, hvis, h]
  · intro g fuel v ctx vert hcir hv hpath
    by_cases hvis : vert.name ∈ ctx.visited
    · simp [traverse, hv, hvis, hcir, hpath]
    · simp [traverse, hv, hvis, hcir, hpath]

/-- C4 witness: concrete applications of both parts on the cyclic example
graph. -/
theorem c4_traverse_cycle_recording_witness :
    ((traverse gC 5 "a" { path := [], circular := some ["x"], visited := [] }).circular
      = some ["x"] ∧
     (traverse gC 5 "a" { path := [], circular := some ["x"], visited := [] }).path = []) ∧
    traverse gC 5 "a" { path := ["[root]", "a", "b"], circular := none, visited := [] } =
      { path := ["[root]", "a", "b"],
        circular := some ["[root]", "a", "b", "a"],
        visited := ["a"] } := by
  constructor
  · exact c4_traverse_cycle_recording.1 gC 5 "a"
      { path := [], circular := some ["x"], visited := [] } ["x"] rfl
  · have h := c4_traverse_cycle_recording.2 gC 4 "a"
      { path := ["[root]", "a", "b"], circular := none, visited := [] }
      { name := "a", edges := [{ efrom := "a", eto := "b" }], data := .null }
      rfl (by decide) (by decide)
    rw [h]
    decide

/-! ### String-primitive lemmas for the emitter theorems -/

theorem isPre_append : ∀ (a b : JStr), isPre a (a ++ b) = true
  | [], _ => rfl
  | c :: as, b => by simp [isPre, isPre_append as b]

theorem jsEndsWith_append (l s : JStr) : jsEndsWith (l ++ s) s = true := by
  unfold jsEndsWith
  rw [List.reverse_append]
  exact isPre_append s.reverse l.reverse

theorem firstOcc_le_of_drop :
    ∀ (sep l : JStr) (p : Nat), isPre sep (l.drop p) = true →
    ∃ i, firstOcc sep l = some i ∧ i ≤ p
  | sep, [], p, h => by
    have h0 : isPre sep [] = true := by simpa using h
    exact ⟨0, by simp [firstOcc, h0], Nat.zero_le p⟩
  | sep, c :: rest, 0, h => by
    have h0 : isPre sep (c :: rest) = true := by simpa using h
    exact ⟨0, by simp [firstOcc, h0], le_refl 0⟩
  | sep, c :: rest, p + 1, h => by
    have hrest : isPre sep (rest.drop p) = true := by simpa using h
    obtain ⟨i, hi, hle⟩ := firstOcc_le_of_drop sep rest p hrest
    by_cases hc : isPre sep (c :: rest) = true
    · exact ⟨0, by simp [firstOcc, hc], Nat.zero_le _⟩
    · refine ⟨i + 1, ?_, by omega⟩
      have hc' : isPre sep (c :: rest) = false := by
        cases hb : isPre sep (c :: rest) with
        | true => exact absurd hb hc
        | false => rfl
      simp [firstOcc, hc', hi]

theorem jsSplitAux_none (sep : JStr) :
    ∀ (fuel : Nat) (l : JStr), firstOcc sep l = none → jsSplitAux sep fuel l = [l]
  | 0, l, _ => rfl
  | fuel + 1, l, h => by simp [jsSplitAux, h]

theorem jsSplit_head (sep : JStr) (l : JStr) (i : Nat)
    (hsep : sep ≠ []) (h : firstOcc sep l = some i) :
    (jsSplit sep l).headD [] = l.take i := by
  cases l with
  | nil =>
    have : isPre sep [] = false := by
      cases sep with
      | nil => exact absurd rfl hsep
      | cons a as => rfl
    simp [firstOcc, this] at h
  | cons c rest =>
    simp [jsSplit, hsep, jsSplitAux, h]

theorem firstOcc_colon_append :
    ∀ (ns rest : JStr), ':' ∉ ns → firstOcc [':'] (ns ++ ':' :: rest) = some ns.length
  | [], rest, _ => by simp [firstOcc, isPre]
  | c :: ns', rest, h => by
    have hc : ':' ≠ c := fun hh => h (by simp [← hh])
    have hcb : (':' == c) = false := beq_eq_false_iff_ne.mpr hc
    have hns' : ':' ∉ ns' := fun hh => h (by simp [hh])
    have ih := firstOcc_colon_append ns' rest hns'
    simp [firstOcc, isPre, hcb, ih]

theorem firstOcc_colon_none : ∀ (l : JStr), ':' ∉ l → firstOcc [':'] l = none
  | [], _ => by simp [firstOcc, isPre]
  | c :: rest, h => by
    have hc : ':' ≠ c := fun hh => h (by simp [← hh])
    have hcb : (':' == c) = false := beq_eq_false_iff_ne.mpr hc
    have ih := firstOcc_colon_none rest (fun hh => h (by simp [hh]))
    simp [firstOcc, isPre, hcb, ih]

theorem jsSplit_colon (ns event : JStr) (h1 : ':' ∉ ns) (h3 : ':' ∉ event) :
    jsSplit [':'] (ns ++ ':' :: event) = [ns, event] := by
  have hfo : firstOcc [':'] (ns ++ ':' :: event) = some ns.length :=
    firstOcc_colon_append ns event h1
  have hlen : (ns ++ ':' :: event).length = (ns.length + event.length) + 1 := by
    simp [List.length_append]
    omega
  have htake : (ns ++ ':' :: event).take ns.length = ns := by
    simp
  have hdrop : (ns ++ ':' :: event).drop (ns.length + 1) = event := by
    have hsplit : ns ++ ':' :: event = (ns ++ [':']) ++ event := by simp
    rw [hsplit]
    simp
  rw [jsSplit, if_neg (by simp), hlen]
  rw [show jsSplitAux [':'] ((ns.length + event.length) + 1) (ns ++ ':' :: event) =
      (ns ++ ':' :: event).take ns.length ::
        jsSplitAux [':'] (ns.length + event.length)
          ((ns ++ ':' :: event).drop (ns.length + 1)) from by
    simp [jsSplitAux, hfo]]
  rw [htake, hdrop, jsSplitAux_none [':'] _ event (firstOcc_colon_none event h3)]

theorem intercalate_single {α : Type} (sep : List α) (x : List α) :
    List.intercalate sep [x] = x := by
  simp [List.intercalate]

theorem jsEndsWith_colon_false (ns event : JStr) (h3 : ':' ∉ event) (h4 : event ≠ []) :
    jsEndsWith (ns ++ ':' :: event) [':'] = false := by
  obtain ⟨y, ys, hrev⟩ : ∃ y ys, event.reverse = y :: ys := by
    cases hev : event.reverse with
    | nil =>
      have : event = [] := by simpa using congrArg List.reverse hev
      exact absurd this h4
    | cons y ys => exact ⟨y, ys, rfl⟩
  have hy : y ∈ event := by
    have hmem : y ∈ event.reverse := by rw [hrev]; simp
    simpa using hmem
  have hyne : (':' == y) = false := beq_eq_false_iff_ne.mpr (fun hh => h3 (hh ▸ hy))
  have hEr : (ns ++ ':' :: event).reverse = y :: (ys ++ ':' :: ns.reverse) := by
    rw [List.reverse_append, List.reverse_cons, hrev]
    simp
  unfold jsEndsWith
  rw [hEr]
  simp [isPre, hyne]

/-! ### Emitter state lemmas -/

theorem onSub_separator (st : NsEmitterState) (e : JStr) (h : Nat) :
    (onSub st e h).separator = st.separator := rfl

theorem subscribeAll_separator (sep : JStr) (subs : List (JStr × Nat)) :
    (subscribeAll sep subs).separator = sep := by
  have haux : ∀ (l : List (JStr × Nat)) (st : NsEmitterState),
      (l.foldl (fun s p => onSub s p.1 p.2) st).separator = st.separator := by
    intro l
    induction l with
    | nil => intro st; rfl
    | cons p rest ih =>
      intro st
      rw [List.foldl_cons, ih]
      rfl
  exact haux subs (createNs sep)

theorem contentsOf_createNs (sep k : JStr) : contentsOf (createNs sep) k = [] := by
  unfold contentsOf createNs listGet
  by_cases hk : k = []
  · simp [hk, List.find?]
  · have : (([] : JStr) == k) = false := beq_eq_false_iff_ne.mpr (fun hh => hk hh.symm)
    simp [List.find?, this]

theorem contentsOf_onSub (st : NsEmitterState) (e : JStr) (h : Nat) (k : JStr) :
    contentsOf (onSub st e h) k =
      if routeOf st.separator e = k then contentsOf st k ++ [(e, h)]
      else contentsOf st k := by
  by_cases hk : routeOf st.separator e = k
  · rw [if_pos hk]
    show (listGet (listSet st.emitters (routeOf st.separator e) _) k).getD [] = _
    rw [hk, listGet_listSet_self]
    rfl
  · rw [if_neg hk]
    show (listGet (listSet st.emitters (routeOf st.separator e) _) k).getD [] = _
    rw [listGet_listSet_ne _ _ _ _ (fun hh => hk hh.symm)]
    rfl

theorem subscribeAll_contents_aux :
    ∀ (subs : List (JStr × Nat)) (st : NsEmitterState) (k : JStr),
    contentsOf (subs.foldl (fun s p => onSub s p.1 p.2) st) k =
      contentsOf st k ++ subs.filter (fun p => routeOf st.separator p.1 == k)
  | [], st, k => by simp
  | p :: rest, st, k => by
    rw [List.foldl_cons, subscribeAll_contents_aux rest (onSub st p.1 p.2) k,
      onSub_separator, contentsOf_onSub]
    by_cases hr : routeOf st.separator p.1 = k
    · have hrb : (routeOf st.separator p.1 == k) = true := beq_iff_eq.mpr hr
      simp [hr, hrb, List.filter_cons]
    · have hrb : (routeOf st.separator p.1 == k) = false := beq_eq_false_iff_ne.mpr hr
      simp [hr, hrb, List.filter_cons]

theorem subscribeAll_contents (sep : JStr) (subs : List (JStr × Nat)) (k : JStr) :
    contentsOf (subscribeAll sep subs) k =
      subs.filter (fun p => routeOf sep p.1 == k) := by
  unfold subscribeAll
  rw [subscribeAll_contents_aux, contentsOf_createNs]
  rfl

theorem routeOf_concat_colon (k : JStr) : routeOf [':'] (k ++ [':']) = k := by
  simp [routeOf, isNsKey, jsEndsWith_append]

theorem routeOf_of_not_colon_end (l : JStr) (h : jsEndsWith l [':'] = false) :
    routeOf [':'] l = [] := by
  simp [routeOf, isNsKey, h]

/-- The delivery list of emit under the default separator ":", fully
characterized from the subscription history: the namespace-wide group fires
first with the unqualified event name prepended, then the exact-key group,
each in subscription order. -/
theorem nsEmit_colon_char (subs : List (JStr × Nat)) (ns event : JStr)
    (args : List Value)
    (h1 : ':' ∉ ns) (h2 : ns ≠ []) (h3 : ':' ∉ event) (h4 : event ≠ []) :
    nsEmit (subscribeAll [':'] subs) (ns ++ ':' :: event) args =
      (subs.filter (fun p => p.1 == ns ++ [':'])).map
        (fun p => (p.2, Value.strV (String.mk event) :: args)) ++
      (subs.filter (fun p => p.1 == ns ++ ':' :: event)).map
        (fun p => (p.2, args)) := by
  have hsep := subscribeAll_separator [':'] subs
  have hfo := firstOcc_colon_append ns event h1
  have hcontains : jsContains [':'] (ns ++ ':' :: event) = true := by
    simp [jsContains, hfo]
  have hsplit := jsSplit_colon ns event h1 h3
  have hca : contentsOf (subscribeAll [':'] subs) ns =
      subs.filter (fun p => routeOf [':'] p.1 == ns) := subscribeAll_contents _ _ _
  have hcb : contentsOf (subscribeAll [':'] subs) [] =
      subs.filter (fun p => routeOf [':'] p.1 == []) := subscribeAll_contents _ _ _
  have hfa : (subs.filter (fun p => routeOf [':'] p.1 == ns)).filter
      (fun p => p.1 == ns ++ [':']) = subs.filter (fun p => p.1 == ns ++ [':']) := by
    rw [List.filter_filter]
    apply List.filter_congr
    intro p _
    by_cases hp : p.1 = ns ++ [':']
    · simp [hp, routeOf_concat_colon]
    · have : (p.1 == ns ++ [':']) = false := beq_eq_false_iff_ne.mpr hp
      simp [this]
  have hfb : (subs.filter (fun p => routeOf [':'] p.1 == [])).filter
      (fun p => p.1 == ns ++ ':' :: event) =
      subs.filter (fun p => p.1 == ns ++ ':' :: event) := by
    rw [List.filter_filter]
    apply List.filter_congr
    intro p _
    by_cases hp : p.1 = ns ++ ':' :: event
    · simp [hp, routeOf_of_not_colon_end _ (jsEndsWith_colon_false ns event h3 h4)]
    · have : (p.1 == ns ++ ':' :: event) = false := beq_eq_false_iff_ne.mpr hp
      simp [this]
  unfold nsEmit eventInfo
  rw [hsep, hcontains]
  simp only [if_true]
  rw [hsplit]
  simp only [List.headD, List.tail]
  rw [if_pos (by simpa using h2), hca, hcb, hfa, hfb, intercalate_single]

/-! ### C7: namespace re-emit alongside exact-key delivery -/

/-- C7 amended: with the default ":" separator, emitting
`namespace + ":" + event` delivers the arguments to every exact-key
subscriber of the full key and re-emits on the bare `namespace + ":"` key
with the unqualified event name prepended, each group in subscription
order and all synchronously — but the namespace-wide handlers fire BEFORE
the exact-key handlers, not after them as the claim states. -/
theorem c7_emit_delivery (subs : List (JStr × Nat)) (ns event : JStr)
    (args : List Value)
    (h1 : ':' ∉ ns) (h2 : ns ≠ []) (h3 : ':' ∉ event) (h4 : event ≠ []) :
    nsEmit (subscribeAll [':'] subs) (ns ++ ':' :: event) args =
      (subs.filter (fun p => p.1 == ns ++ [':'])).map
        (fun p => (p.2, Value.strV (String.mk event) :: args)) ++
      (subs.filter (fun p => p.1 == ns ++ ':' :: event)).map
        (fun p => (p.2, args)) :=
  nsEmit_colon_char subs ns event args h1 h2 h3 h4

/-- C7 witness: the concrete subscription history of the counterexample,
evaluated through the amended theorem. -/
theorem c7_emit_delivery_witness :
    nsEmit (subscribeAll [':'] [(str "ns:event", 1), (str "ns:", 2)])
      (str "ns" ++ ':' :: str "event") [.num 42] =
      [(2, [.strV "event", .num 42]), (1, [.num 42])] := by
  have h := c7_emit_delivery [(str "ns:event", 1), (str "ns:", 2)]
    (str "ns") (str "event") [.num 42] (by decide) (by decide) (by decide) (by decide)
  rw [h]
  decide

/-! ### C9: the hardcoded ":" in the namespace re-emit key -/

/-- Unfolding of the emit body with its let bindings substituted. -/
theorem nsEmit_eq (st : NsEmitterState) (event : JStr) (args : List Value) :
    nsEmit st event args =
      (if (eventInfo st.separator event).headD [] ≠ [] then
        ((contentsOf st ((eventInfo st.separator event).headD [])).filter
          (fun p => p.1 == (eventInfo st.separator event).headD [] ++ [':'])).map
          (fun p => (p.2, Value.strV (String.mk
            (List.intercalate st.separator (eventInfo st.separator event).tail)) :: args))
      else []) ++
      ((contentsOf st []).filter (fun p => p.1 == event)).map
        (fun p => (p.2, args)) := rfl

/-- C9 amended: the re-emit key is built with the literal ":" regardless of
the configured separator, so for every NONEMPTY separator other than ":"
and nonempty event name, a handler subscribed to the namespace key
`ns + s` is never invoked by emitting `ns + s + event`; with the default
":" separator namespace delivery works. (The empty separator is the
counterexample that forces the nonemptiness condition.) -/
theorem c9_hardcoded_colon_amended :
    (∀ (s ns event : JStr) (h : Nat) (args : List Value),
      s ≠ [':'] → s ≠ [] → event ≠ [] →
      nsEmit (subscribeAll s [(ns ++ s, h)]) (ns ++ s ++ event) args = []) ∧
    (∀ (ns event : JStr) (h : Nat) (args : List Value),
      ':' ∉ ns → ns ≠ [] → ':' ∉ event → event ≠ [] →
      nsEmit (subscribeAll [':'] [(ns ++ [':'], h)]) (ns ++ ':' :: event) args =
        [(h, Value.strV (String.mk event) :: args)]) := by
  constructor
  · intro s ns event h args hs1 hs2 he
    have hsep := subscribeAll_separator s [(ns ++ s, h)]
    have hdrop : (ns ++ s ++ event).drop ns.length = s ++ event := by
      rw [List.append_assoc]
      simp
    have hocc : isPre s ((ns ++ s ++ event).drop ns.length) = true := by
      rw [hdrop]
      exact isPre_append s event
    obtain ⟨i, hfo, hile⟩ := firstOcc_le_of_drop s (ns ++ s ++ event) ns.length hocc
    have hcontains : jsContains s (ns ++ s ++ event) = true := by
      unfold jsContains
      rw [if_neg hs2, hfo]
      rfl
    have heinfo : eventInfo s (ns ++ s ++ event) = jsSplit s (ns ++ s ++ event) := by
      unfold eventInfo
      rw [hcontains]
      rfl
    have hhead : (jsSplit s (ns ++ s ++ event)).headD [] = (ns ++ s ++ event).take i :=
      jsSplit_head s _ i hs2 hfo
    have hslen : 1 ≤ s.length := by
      cases s with
      | nil => exact absurd rfl hs2
      | cons a as => simp
    have hilen : ((ns ++ s ++ event).take i).length = i := by
      rw [List.length_take]
      have hle : i ≤ (ns ++ s ++ event).length := by
        rw [List.length_append, List.length_append]
        omega
      omega
    have hkeyns : ((ns ++ s : JStr) == (ns ++ s ++ event).take i ++ [':']) = false := by
      apply beq_eq_false_iff_ne.mpr
      intro heq
      have hlen1 : ns.length + s.length = i + 1 := by
        have hh := congrArg List.length heq
        rw [List.length_append, List.length_append, hilen] at hh
        simpa using hh
      have hs1len : s.length = 1 := by omega
      have hi : i = ns.length := by omega
      have htake : (ns ++ s ++ event).take i = ns := by
        rw [hi, List.append_assoc]
        simp
      rw [htake] at heq
      exact absurd (List.append_cancel_left heq) hs1
    have hkeydef : ((ns ++ s : JStr) == ns ++ s ++ event) = false := by
      apply beq_eq_false_iff_ne.mpr
      intro heq
      have hh := congrArg List.length heq
      rw [List.length_append, List.length_append, List.length_append] at hh
      have : event = [] := List.eq_nil_of_length_eq_zero (by omega)
      exact absurd this he
    have hcontents : ∀ k : JStr, contentsOf (subscribeAll s [(ns ++ s, h)]) k =
        if (routeOf s (ns ++ s) == k) = true then [(ns ++ s, h)] else [] := by
      intro k
      rw [subscribeAll_contents]
      by_cases hk : routeOf s (ns ++ s) = k
      · simp [List.filter_cons, hk]
      · have hb : (routeOf s (ns ++ s) == k) = false := beq_eq_false_iff_ne.mpr hk
        simp [List.filter_cons, hb]
    rw [nsEmit_eq, hsep, heinfo, hhead]
    apply List.append_eq_nil.mpr
    constructor
    · by_cases hn : (ns ++ s ++ event).take i = []
      · rw [if_neg (fun hc => hc hn)]
      · rw [if_pos hn, hcontents]
        by_cases hr : routeOf s (ns ++ s) = (ns ++ s ++ event).take i
        · rw [if_pos (beq_iff_eq.mpr hr)]
          simp only [List.filter_cons, hkeyns]
          simp
        · rw [if_neg (fun hx => hr (beq_iff_eq.mp hx))]
          simp
    · rw [hcontents]
      by_cases hr : routeOf s (ns ++ s) = []
      · rw [if_pos (beq_iff_eq.mpr hr)]
        simp only [List.filter_cons, hkeydef]
        simp
      · rw [if_neg (fun hx => hr (beq_iff_eq.mp hx))]
        simp
  · intro ns event h args h1 h2 h3 h4
    have hc := nsEmit_colon_char [(ns ++ [':'], h)] ns event args h1 h2 h3 h4
    rw [hc]
    have hne : ((ns ++ [':'] : JStr) == ns ++ ':' :: event) = false := by
      apply beq_eq_false_iff_ne.mpr
      intro heq
      have hfix := List.append_cancel_left heq
      have hev : event = [] := by
        cases event with
        | nil => rfl
        | cons c cs => simp at hfix
      exact absurd hev h4
    simp [List.filter_cons, hne]

/-! ### C3: what the scoped dependency call does -/

theorem addE_spec (g : DGraph) (s t : String) (sv : Vertex)
    (hgv : g.v s = some sv) (ht : (g.v t).isSome = true) :
    ∃ g', addE g s t = .ok g' ∧
      (∀ n, (g.v n).isSome = true → (g'.v n).isSome = true) ∧
      hasEdgeName g' s t = true ∧
      (∀ a b, hasEdgeName g a b = true → hasEdgeName g' a b = true) := by
  cases hgt : g.v t with
  | none => rw [hgt] at ht; simp at ht
  | some tv =>
    by_cases hc : containsEdge sv { efrom := s, eto := t } = true
    · refine ⟨g, ?_, fun n hn => hn, ?_, fun a b hab => hab⟩
      · simp [addE, hgv, hgt, hc]
      · simp [hasEdgeName, hgv, hc]
    · have hcf : containsEdge sv { efrom := s, eto := t } = false := by
        cases hcc : containsEdge sv { efrom := s, eto := t } with
        | true => exact absurd hcc hc
        | false => rfl
      refine ⟨{ g with vertices := listSet g.vertices s
                          ({ sv with edges := sv.edges ++ [{ efrom := s, eto := t }] }) },
        ?_, ?_, ?_, ?_⟩
      · simp [addE, hgv, hgt, hcf]
      · intro n hn
        by_cases hns : n = s
        · subst hns
          show (listGet (listSet g.vertices n _) n).isSome = true
          rw [listGet_listSet_self]
          rfl
        · show (listGet (listSet g.vertices s _) n).isSome = true
          rw [listGet_listSet_ne _ _ _ _ hns]
          exact hn
      · have hv' : DGraph.v { g with vertices := listSet g.vertices s
                                          ({ sv with edges := sv.edges ++ [{ efrom := s, eto := t }] }) } s =
            some { sv with edges := sv.edges ++ [{ efrom := s, eto := t }] } := by
          show listGet (listSet g.vertices s _) s = _
          rw [listGet_listSet_self]
        simp [hasEdgeName, hv', containsEdge]
      · intro a b hab
        by_cases has : a = s
        · subst has
          have hv' : DGraph.v { g with vertices := listSet g.vertices a
                                            ({ sv with edges := sv.edges ++ [{ efrom := a, eto := t }] }) } a =
              some { sv with edges := sv.edges ++ [{ efrom := a, eto := t }] } := by
            show listGet (listSet g.vertices a _) a = _
            rw [listGet_listSet_self]
          simp only [hasEdgeName, hgv] at hab
          simp only [hasEdgeName, hv']
          simp only [containsEdge] at hab ⊢
          rw [List.any_append]
          simp [hab]
        · have hv' : DGraph.v { g with vertices := listSet g.vertices s
                                            ({ sv with edges := sv.edges ++ [{ efrom := s, eto := t }] }) } a =
              g.v a := by
            show listGet (listSet g.vertices s _) a = listGet g.vertices a
            exact listGet_listSet_ne _ _ _ _ has
          simp only [hasEdgeName] at hab ⊢
          rw [hv']
          exact hab

theorem addDepEdges_spec :
    ∀ (deps : List String) (st : CtxState) (modName : String),
    (st.graph.v modName).isSome = true →
    (∀ d ∈ deps, (listGet st.modules d).isSome = true ∧ (st.graph.v d).isSome = true) →
    ∃ st2, addDepEdges st modName deps = (st2, none) ∧
      st2.recs = st.recs ∧ st2.modules = st.modules ∧
      (∀ a b, hasEdgeName st.graph a b = true → hasEdgeName st2.graph a b = true) ∧
      (∀ d ∈ deps, hasEdgeName st2.graph modName d = true)
  | [], st, modName, _, _ => ⟨st, rfl, rfl, rfl, fun _ _ h => h, by simp⟩
  | d :: rest, st, modName, hmod, hdeps => by
    obtain ⟨hdreg, hdv⟩ := hdeps d (by simp)
    cases hgv : st.graph.v modName with
    | none => rw [hgv] at hmod; simp at hmod
    | some sv =>
      obtain ⟨g', hge, hgpres, hgself, hgmono⟩ := addE_spec st.graph modName d sv hgv hdv
      have hdregf : (listGet st.modules d).isNone = false := by
        cases hg2 : listGet st.modules d with
        | none => rw [hg2] at hdreg; simp at hdreg
        | some _ => rfl
      have hstep : addDepEdges st modName (d :: rest) =
          addDepEdges { st with graph := g' } modName rest := by
        simp [addDepEdges, hdregf, hge]
      have hmodv' : (DGraph.v ({ st with graph := g' } : CtxState).graph modName).isSome = true :=
        hgpres modName (by rw [hgv]; rfl)
      have hrest : ∀ d' ∈ rest,
          (listGet ({ st with graph := g' } : CtxState).modules d').isSome = true ∧
          (DGraph.v ({ st with graph := g' } : CtxState).graph d').isSome = true := by
        intro d' hd'
        obtain ⟨h1, h2⟩ := hdeps d' (by simp [hd'])
        exact ⟨h1, hgpres d' h2⟩
      obtain ⟨st2, ha, hrecs, hmods, hmono2, hall⟩ :=
        addDepEdges_spec rest { st with graph := g' } modName hmodv' hrest
      refine ⟨st2, ?_, hrecs, hmods, ?_, ?_⟩
      · rw [hstep]; exact ha
      · intro a b hab
        exact hmono2 a b (hgmono a b hab)
      · intro d' hd'
        rcases List.mem_cons.mp hd' with h1 | h1
        · subst h1
          exact hmono2 modName d' hgself
        · exact hall d' h1

theorem computeMissing_ok :
    ∀ (deps : List String) (st : CtxState),
    (∀ d ∈ deps, (listGet st.modules d).isSome = true) →
    ∃ m, computeMissing st deps = .ok m
  | [], _, _ => ⟨[], rfl⟩
  | d :: rest, st, h => by
    obtain ⟨m, hm⟩ := computeMissing_ok rest st (fun x hx => h x (by simp [hx]))
    cases hg : listGet st.modules d with
    | none =>
      have hd := h d (by simp)
      rw [hg] at hd
      simp at hd
    | some rid =>
      exact ⟨if recInit st rid then m else d :: m, by simp [computeMissing, hg, hm]⟩

theorem resolveDeps_ok (st : CtxState) (deps : List String)
    (h : ∀ d ∈ deps, (listGet st.modules d).isSome = true) :
    ∃ out, resolveDeps st deps = .ok out := by
  by_cases hlen : (getInitializedModules st deps).length = deps.length
  · exact ⟨.called (getInitializedModules st deps), by simp [resolveDeps, hlen]⟩
  · obtain ⟨m, hm⟩ := computeMissing_ok deps st h
    exact ⟨.subscribed m, by simp [resolveDeps, hlen, hm]⟩

theorem setRecDeps_modules (st : CtxState) (rid : Nat) (deps : List String) :
    (setRecDeps st rid deps).modules = st.modules := by
  unfold setRecDeps
  cases h : nth st.recs rid <;> rfl

theorem setRecDeps_graph (st : CtxState) (rid : Nat) (deps : List String) :
    (setRecDeps st rid deps).graph = st.graph := by
  unfold setRecDeps
  cases h : nth st.recs rid <;> rfl

theorem setRecDeps_recs (st : CtxState) (rid : Nat) (deps : List String)
    (r : ModRecord) (h : nth st.recs rid = some r) :
    (setRecDeps st rid deps).recs = setNth st.recs rid { r with dependencies := deps } := by
  unfold setRecDeps
  rw [h]

/-- C3 amended: when a module calls `dependency(names)` on its scoped
context during startup (the ambient graph in scope), with the calling
module registered and every requested name registered with its vertex
present, the call records the names as the dependency set of the calling
record, inserts one edge from the calling module to each requested name,
and delegates to the resolver — it succeeds with the resolver outcome and
performs NO cycle check: the result is `.ok` even when the inserted edges
close a cycle (cycles are only found by the single traversal `start()`
queues after dispatching all modules, which rejects the start promise). -/
theorem c3_scoped_dependency_amended (st : CtxState) (modName : String)
    (deps : List String) (rid : Nat)
    (hmod : listGet st.modules modName = some rid)
    (hrec : (nth st.recs rid).isSome = true)
    (hvm : (st.graph.v modName).isSome = true)
    (hdeps : ∀ d ∈ deps,
      (listGet st.modules d).isSome = true ∧ (st.graph.v d).isSome = true) :
    ∃ (st' : CtxState) (out : ResolveOutcome),
      moduleContextDependency st true modName deps = (st', .ok out) ∧
      (nth st'.recs rid).map ModRecord.dependencies = some deps ∧
      (∀ d ∈ deps, hasEdgeName st'.graph modName d = true) := by
  cases hr : nth st.recs rid with
  | none => rw [hr] at hrec; simp at hrec
  | some r =>
    have h1m := setRecDeps_modules st rid deps
    have h1g := setRecDeps_graph st rid deps
    have h1r := setRecDeps_recs st rid deps r hr
    obtain ⟨st2, ha, hrecs, hmods, _, hall⟩ :=
      addDepEdges_spec deps (setRecDeps st rid deps) modName
        (by rw [h1g]; exact hvm)
        (fun d hd => ⟨by rw [h1m]; exact (hdeps d hd).1, by rw [h1g]; exact (hdeps d hd).2⟩)
    obtain ⟨out, hout⟩ := resolveDeps_ok st2 deps
      (fun d hd => by rw [hmods, h1m]; exact (hdeps d hd).1)
    refine ⟨st2, out, ?_, ?_, hall⟩
    · simp only [moduleContextDependency, hmod]
      rw [if_pos trivial, ha]
      show (st2, resolveDeps st2 deps) = (st2, Except.ok out)
      rw [hout]
    · rw [hrecs, h1r, nth_setNth_self st.recs rid _ (nth_lt_length _ _ _ hr)]
      rfl

/-- C3 amended witness: the cyclic mid-startup scenario — the call of `b`
succeeds, records the dependency set and inserts the edge that closes the
cycle. -/
theorem c3_scoped_dependency_amended_witness :
    ∃ (st' : CtxState) (out : ResolveOutcome),
      moduleContextDependency c3St true "b" ["a"] = (st', .ok out) ∧
      (nth st'.recs 1).map ModRecord.dependencies = some ["a"] ∧
      (∀ d ∈ ["a"], hasEdgeName st'.graph "b" d = true) :=
  c3_scoped_dependency_amended c3St "b" ["a"] 1 (by decide) (by decide) (by decide)
    (by decide)

/-! ### C8: the initialized flag of a record -/

theorem nth_append_length {α : Type} :
    ∀ (l : List α) (x : α), nth (l ++ [x]) l.length = some x
  | [], _ => rfl
  | _ :: rest, x => nth_append_length rest x

theorem recInit_of_recs_eq (s' s : CtxState) (rid : Nat) (h : s'.recs = s.recs) :
    recInit s' rid = recInit s rid := by
  unfold recInit
  rw [h]

theorem resolveStart_recs (st : CtxState) (sid : Nat) :
    (resolveStart st sid).recs = st.recs := by
  unfold resolveStart
  cases h : nth st.starts sid with
  | none => rfl
  | some p => cases p <;> rfl

theorem rejectStart_recs (st : CtxState) (sid : Nat) (msg : String) :
    (rejectStart st sid msg).recs = st.recs := by
  unfold rejectStart
  cases h : nth st.starts sid with
  | none => rfl
  | some p => cases p <;> rfl

theorem ctxOff_recs (st : CtxState) (key : String) (lid : Nat) :
    (ctxOff st key lid).recs = st.recs := rfl

theorem runListener_recs :
    ∀ (fuel : Nat) (st : CtxState) (lid : Nat), (runListener fuel st lid).recs = st.recs := by
  intro fuel
  induction fuel with
  | zero => intro st lid; rfl
  | succ n ih =>
    intro st lid
    have hfold : ∀ (L : List (Nat × List Value)) (s : CtxState),
        (L.foldl (fun s d => runListener n s d.1) s).recs = s.recs := by
      intro L
      induction L with
      | nil => intro s; rfl
      | cons d rest ihL =>
        intro s
        rw [List.foldl_cons, ihL, ih]
    show (runListener (n + 1) st lid).recs = st.recs
    unfold runListener
    cases hl : listGet st.listeners lid with
    | none => rfl
    | some l =>
      cases l with
      | checkAll sid watch =>
        show (if (watch.all fun rid => recInit st rid) = true then
            resolveStart
              (List.foldl (fun s d => runListener n s d.1)
                (ctxOff st "context:init-module" lid)
                (nsEmit (ctxOff st "context:init-module" lid).emitter
                  (str "context:start") []))
              sid
          else st).recs = st.recs
        by_cases hall : (watch.all (fun rid => recInit st rid)) = true
        · rw [if_pos hall, resolveStart_recs, hfold]
          rfl
        · rw [if_neg hall]

theorem runListenerFold_recs (fuel : Nat) :
    ∀ (L : List (Nat × List Value)) (s : CtxState),
    (L.foldl (fun s d => runListener fuel s d.1) s).recs = s.recs := by
  intro L
  induction L with
  | nil => intro s; rfl
  | cons d rest ih =>
    intro s
    rw [List.foldl_cons, ih, runListener_recs]

theorem emitCtx_recs (fuel : Nat) (st : CtxState) (key : String) (args : List Value) :
    (emitCtx fuel st key args).recs = st.recs := by
  unfold emitCtx
  exact runListenerFold_recs fuel _ st

theorem recInit_emitCtx (fuel : Nat) (st : CtxState) (key : String)
    (args : List Value) (rid : Nat) :
    recInit (emitCtx fuel st key args) rid = recInit st rid :=
  recInit_of_recs_eq _ st rid (emitCtx_recs fuel st key args)

theorem processTask_mono (fuel : Nat) (st : CtxState) (t : Task) (rid : Nat)
    (h : recInit st rid = true) : recInit (processTask fuel st t) rid = true := by
  cases t with
  | dispatch r =>
    simp only [processTask]
    cases hr : nth st.recs r with
    | none => exact h
    | some rec0 =>
      obtain ⟨nm, defn, dps, ini, mo⟩ := rec0
      cases defn <;> exact h
  | fulfil r v =>
    simp only [processTask]
    cases hr : nth st.recs r with
    | none => exact h
    | some rec0 =>
      have hlen : r < st.recs.length := nth_lt_length st.recs r rec0 hr
      rw [recInit_emitCtx, recInit_emitCtx]
      by_cases hid : r = rid
      · subst hid
        show ((nth (setNth st.recs r { rec0 with module := v, initialized := true }) r).map
            (fun q => q.initialized)).getD false = true
        rw [nth_setNth_self st.recs r _ hlen]
        rfl
      · show ((nth (setNth st.recs r { rec0 with module := v, initialized := true }) rid).map
            (fun q => q.initialized)).getD false = true
        rw [nth_setNth_ne st.recs r rid _ hid]
        exact h
  | cycleCheck sid =>
    simp only [processTask]
    cases ht : (traverse st.graph (st.graph.vertices.length + 2) "[root]" emptyTraversal).circular with
    | none => exact h
    | some c =>
      rw [recInit_of_recs_eq _ st rid (rejectStart_recs st sid _)]
      exact h

theorem register_recs (st : CtxState) (name : String) (prog : InitProg) :
    (register st name prog).recs =
      st.recs ++ [{ name := name, moduleDefn := prog, dependencies := [],
                    initialized := false, module := .null }] := by
  unfold register
  cases prog <;> by_cases h : st.started <;> simp [h]

theorem register_mono (st : CtxState) (name : String) (prog : InitProg) (rid : Nat)
    (h : recInit st rid = true) : recInit (register st name prog) rid = true := by
  unfold recInit at h ⊢
  rw [register_recs]
  cases hr : nth st.recs rid with
  | none => rw [hr] at h; exact absurd h (by simp)
  | some rec0 =>
    rw [nth_append_lt st.recs _ rid rec0 hr]
    rw [hr] at h
    exact h

theorem startFold_recs :
    ∀ (watch : List Nat) (s : CtxState),
    (watch.foldl
      (fun s rid =>
        match nth s.recs rid with
        | some r =>
          let s := { s with graph := addV s.graph r.name .null }
          let s :=
            match addE s.graph "[root]" r.name with
            | .ok g => { s with graph := g }
            | .error _ => s
          { s with queue := s.queue ++ [.dispatch rid] }
        | none => s)
      s).recs = s.recs
  | [], s => rfl
  | rid :: rest, s => by
    rw [List.foldl_cons]
    rw [startFold_recs rest]
    cases hr : nth s.recs rid with
    | none => rfl
    | some r =>
      cases he : addE (addV s.graph r.name .null) "[root]" r.name with
      | ok g => simp [he]
      | error e => simp [he]

theorem startCall_recs (st : CtxState) : ((startCall st).1).recs = st.recs := by
  unfold startCall
  by_cases h : st.started = true
  · rw [if_pos h]
  · rw [if_neg h]
    have hgen : ∀ (stc : CtxState),
        ((st.modules.map (fun (p : String × Nat) => p.2)).foldl
          (fun (s : CtxState) (rid : Nat) =>
            match nth s.recs rid with
            | some r =>
              let s := { s with graph := addV s.graph r.name .null }
              let s :=
                match addE s.graph "[root]" r.name with
                | .ok g => { s with graph := g }
                | .error _ => s
              { s with queue := s.queue ++ [.dispatch rid] }
            | none => s)
          { stc with graph := addV stc.graph "[root]" .null }).recs = stc.recs := by
      intro stc
      rw [startFold_recs]
    exact hgen
      (ctxOn { st with starts := st.starts ++ [PromiseSt.pending] } "context:init-module"
        (Listener.checkAll st.starts.length (st.modules.map (fun p => p.2)))).1

theorem drain_mono (fuel : Nat) :
    ∀ (n : Nat) (st : CtxState) (rid : Nat),
    recInit st rid = true → recInit (drain fuel n st) rid = true
  | 0, st, rid, h => h
  | n + 1, st, rid, h => by
    unfold drain
    cases hq : st.queue with
    | nil => exact h
    | cons t rest =>
      exact drain_mono fuel n _ rid
        (processTask_mono fuel { st with queue := rest } t rid h)

theorem applyOp_mono (st : CtxState) (op : CtxOp) (rid : Nat)
    (h : recInit st rid = true) : recInit (applyOp st op) rid = true := by
  cases op with
  | regOp name prog => exact register_mono st name prog rid h
  | startOp =>
    simp only [applyOp]
    rw [recInit_of_recs_eq _ st rid (startCall_recs st)]
    exact h
  | drainOp fuel n => exact drain_mono fuel n st rid h
  | emitOp fuel key args =>
    simp only [applyOp]
    rw [recInit_of_recs_eq _ st rid (emitCtx_recs fuel st key args)]
    exact h

/-- C8 amended: per record, `initialized` starts false — `register` always
creates a fresh record with the flag down and a null instance — and is
monotone: once a record is observed initialized, no sequence of
orchestrator operations ever resets it. The name-level claim fails only
because re-registering rebinds the name to a fresh record (the
counterexample); the record itself never goes back. -/
theorem c8_initialized_monotone :
    (∀ (st : CtxState) (name : String) (prog : InitProg),
      nth (register st name prog).recs st.recs.length =
        some { name := name, moduleDefn := prog, dependencies := [],
               initialized := false, module := .null }) ∧
    (∀ (ops : List CtxOp) (st : CtxState) (rid : Nat),
      recInit st rid = true → recInit (applyOps st ops) rid = true) := by
  constructor
  · intro st name prog
    rw [register_recs, nth_append_length]
  · intro ops
    induction ops with
    | nil => intro st rid h; exact h
    | cons op rest ih =>
      intro st rid h
      exact ih (applyOp st op) rid (applyOp_mono st op rid h)

/-- C8 witness: concrete applications — the fresh record of a registration,
and the initialized record 0 of the started context surviving a
re-registration, a second start and a drain. -/
theorem c8_initialized_monotone_witness :
    nth (register c2Run1 "b" (.ret .null)).recs c2Run1.recs.length =
      some { name := "b", moduleDefn := .ret .null, dependencies := [],
             initialized := false, module := .null } ∧
    recInit c2Run1 0 = true ∧
    recInit (applyOps c2Run1 [.regOp "a" (.ret .null), .startOp, .drainOp 20 20]) 0 = true := by
  refine ⟨c8_initialized_monotone.1 c2Run1 "b" (.ret .null), by decide, ?_⟩
  exact c8_initialized_monotone.2 [.regOp "a" (.ret .null), .startOp, .drainOp 20 20]
    c2Run1 0 (by decide)

/-- C9 witness: the separator "/" with namespace "a" and event "b" produces
no delivery for the namespace handler, while the default ":" delivers. -/
theorem c9_hardcoded_colon_amended_witness :
    nsEmit (subscribeAll (str "/") [(str "a" ++ str "/", 1)])
      (str "a" ++ str "/" ++ str "b") [.num 7] = [] ∧
    nsEmit (subscribeAll [':'] [(str "a" ++ [':'], 1)])
      (str "a" ++ ':' :: str "b") [.num 7] =
      [(1, [.strV "b", .num 7])] := by
  constructor
  · exact c9_hardcoded_colon_amended.1 (str "/") (str "a") (str "b") 1 [.num 7]
      (by decide) (by decide) (by decide)
  · have h := c9_hardcoded_colon_amended.2 (str "a") (str "b") 1 [.num 7]
      (by decide) (by decide) (by decide) (by decide)
    rw [h]
    decide

/-- C1: evaluation of startup with a failing module. Module `b` throws
during initialize, yet the promise of `start()` stays pending forever — the
queue is drained and no microtask is left — instead of rejecting with that
error: the per-module promises created by `chain.then(...)` are dropped
because `chain` is never reassigned, so the `.catch(err => reject(err))`
guards only the cycle check. The parts of the claim that do hold are also
evaluated: the failure is not retried (each initialize ran once) and the
already initialized module `a` keeps its flag and instance and stays
retrievable through `getModule`. -/
theorem c1_start_failure_not_rejected :
    c1Run.starts = [.pending] ∧ c1Run.queue = [] ∧
    c1Run.initLog = ["a", "b"] ∧
    isInit c1Run "a" = true ∧ getModule c1Run "a" = .strV "va" ∧
    isInit c1Run "b" = false ∧ getModule c1Run "b" = .null := by
  decide

/-- C2: evaluation of a second `start()` after the first resolved. Because
`started` is never assigned (its declaration comment says it is set when
`start()` resolves), the second call re-dispatches every module:
initialize of `a` runs again (the log grows from one to two invocations)
and the completion events are emitted again, so the call is not a no-op,
although it does settle (resolve). -/
theorem c2_second_start_reinitializes :
    c2Run1.starts = [.resolvedP] ∧ c2Run1.initLog = ["a"] ∧
    c2Run1.started = false ∧
    c2Run2.starts = [.resolvedP, .resolvedP] ∧
    c2Run2.initLog = ["a", "a"] := by
  decide

/-- C3 counterexample: the scoped dependency call of module `b` requesting
`a` closes the cycle a -> b -> a (the traversal finds it on the resulting
graph), yet the call does not fail with a cycle error — it succeeds and
installs a wait for `a`. `createModuleContext` performs no cycle check
before delegating. -/
theorem c3_no_cycle_check_counterexample :
    c3Call.2 = .ok (.subscribed ["a"]) ∧
    (traverse c3Call.1.graph 10 "[root]" emptyTraversal).circular =
      some ["[root]", "a", "b", "a"] := by
  decide

/-- C4 counterexample: on the graph root -> a -> b -> a the traversal
records the entire current path with the repeated name appended,
["[root]", "a", "b", "a"], not the path suffix from the first occurrence
of the repeated name, which would be ["a", "b", "a"]. In particular the
recorded list does not begin with the repeated name. -/
theorem c4_full_path_counterexample :
    (traverse gC 10 "[root]" emptyTraversal).circular =
      some ["[root]", "a", "b", "a"] ∧
    claimSuffixCycle ["[root]", "a", "b"] "a" = ["a", "b", "a"] ∧
    (["[root]", "a", "b", "a"] : List String) ≠ ["a", "b", "a"] := by
  decide

/-- C7 counterexample: with the default separator, handler 1 subscribed to
the exact key "ns:event" before handler 2 subscribed to the namespace key
"ns:", emitting "ns:event" with 42 delivers to the namespace handler first
and to the exact-key handler second — not exact-key handlers first as the
claim states. -/
theorem c7_order_counterexample :
    nsEmit e7 (str "ns:event") [.num 42] =
      [(2, [.strV "event", .num 42]), (1, [.num 42])] ∧
    nsEmit e7 (str "ns:event") [.num 42] ≠
      [(1, [.num 42]), (2, [.strV "event", .num 42])] := by
  decide

/-- C8 counterexample: after startup, name `a` is initialized with its
instance retrievable; re-registering the same name rebinds it to a fresh
record with `initialized` false and a null instance, so a name observed as
initialized becomes observably uninitialized again. -/
theorem c8_reregister_uninitializes :
    isInit c2Run1 "a" = true ∧ getModule c2Run1 "a" = .strV "va" ∧
    isInit c8After "a" = false ∧ getModule c8After "a" = .null := by
  decide

/-- C9 counterexample: with the degenerate empty separator (a separator
other than ":"), the handler subscribed to the namespace key "a:" IS
invoked by emitting "a:" + "e" — the split of "a:e" on the empty separator
has head "a" and the hardcoded re-emit key "a" + ":" matches the
subscription — so the claim quantified over every separator other than ":"
fails; it holds once the separator is nonempty, as the amended theorem
states. -/
theorem c9_empty_separator_counterexample :
    nsEmit e9 (str "a:e") [.num 42] = [(1, [.strV ":e", .num 42])] ∧
    nsEmit e9 (str "a:e") [.num 42] ≠ [] := by
  decide

end AppContext
